import Mathlib

/-!
Verification development for the memristive-crossbar simulated 3-D convolution
layer (`memtorch/mn/Conv3d.py`).

The embedding models tensors as shape records over total index functions with
rational entries (rationals stand in for the floating-point values; the spec's
"within floating-point tolerance" becomes exact equality over `ℚ`).  External
collaborators that the layer merely invokes (the device-model simulation
`simulate_matmul`, the tiling engine `tile_matmul`, and the ADC quantizer) are
passed in as opaque function parameters gathered in `ExtOps`; the claims under
study never depend on their values, only on how the layer routes data to and
from them.
-/

/-- A rank-5 tensor `[n, c, d, h, w]`: the shape plus a total index function.
Reads outside the shape are unspecified junk; every statement quantifies only
over in-range indices. -/
structure Tensor5 where
  n : ℕ
  c : ℕ
  d : ℕ
  h : ℕ
  w : ℕ
  val : ℕ → ℕ → ℕ → ℕ → ℕ → ℚ

/-- Zero-padded access into a batch element of `x`: the value of
`nn.functional.pad(x[n], (p2,p2,p1,p1,p0,p0))` at spatial index `(a, b, c)`. -/
def padVal (x : Tensor5) (p0 p1 p2 n ic a b c : ℕ) : ℚ :=
  if p0 ≤ a ∧ a < x.d + p0 ∧ p1 ≤ b ∧ b < x.h + p1 ∧ p2 ≤ c ∧ c < x.w + p2 then
    x.val n ic (a - p0) (b - p1) (c - p2)
  else 0

/-- Reference dense 3-D convolution: the mathematical model of
`torch.nn.functional.conv3d(input, weight, bias, stride, padding)`.  Returns
`none` on the shape errors torch raises (zero stride, kernel larger than the
padded input, empty kernel). -/
def conv3dRef (inC outC : ℕ) (ks ss ps : ℕ × ℕ × ℕ)
    (weight : ℕ → ℕ → ℕ → ℕ → ℕ → ℚ) (bias : Option (ℕ → ℚ)) (x : Tensor5) :
    Option Tensor5 :=
  if ks.1 = 0 ∨ ks.2.1 = 0 ∨ ks.2.2 = 0 ∨ ss.1 = 0 ∨ ss.2.1 = 0 ∨ ss.2.2 = 0 ∨
      x.d + 2 * ps.1 < ks.1 ∨ x.h + 2 * ps.2.1 < ks.2.1 ∨ x.w + 2 * ps.2.2 < ks.2.2 then
    none
  else
    some ⟨x.n, outC,
      (x.d + 2 * ps.1 - ks.1) / ss.1 + 1,
      (x.h + 2 * ps.2.1 - ks.2.1) / ss.2.1 + 1,
      (x.w + 2 * ps.2.2 - ks.2.2) / ss.2.2 + 1,
      fun n oc d h w =>
        (match bias with | none => 0 | some b => b oc) +
        ∑ ic ∈ Finset.range inC, ∑ i ∈ Finset.range ks.1,
          ∑ j ∈ Finset.range ks.2.1, ∑ l ∈ Finset.range ks.2.2,
            weight oc ic i j l *
              padVal x ps.1 ps.2.1 ps.2.2 n ic (d * ss.1 + i) (h * ss.2.1 + j) (w * ss.2.2 + l)⟩

/-- The supported quantization method identifiers
(`memtorch.bh.Quantize.quant_methods`, as documented in the layer's docstring:
"Must be in ['linear', 'log', 'log_minmax', 'minmax', 'tanh'], or None"). -/
def quantMethodNames : List String :=
  ["linear", "log", "log_minmax", "minmax", "tanh"]

/-- Opaque external collaborators consumed by the forward pipeline:
`simulate_matmul` (device-model simulation; args: unfolded input, `nl` flag,
tile shape, voltage bound, ADC resolution, ADC overflow rate, quant method),
`tile_matmul` (tiling engine; args: unfolded input, conductance matrix, tile
shape, ADC resolution, ADC overflow rate, quant method), and
`quantize` (ADC model; args: raw result, ADC resolution, ADC overflow rate,
quant method). -/
structure ExtOps where
  simulateMatmul : (ℕ → ℕ → ℚ) → Bool → Option (ℕ × ℕ) → Option ℚ →
    Option ℤ → Option ℚ → Option String → (ℕ → ℕ → ℚ)
  tileMatmul : (ℕ → ℕ → ℚ) → (ℕ → ℕ → ℚ) → (ℕ × ℕ) →
    Option ℤ → Option ℚ → Option String → (ℕ → ℕ → ℚ)
  quantize : (ℕ → ℕ → ℚ) → Option ℤ → Option ℚ → String → (ℕ → ℕ → ℚ)

/-- The simulated layer state after patching: the fields `Conv3d.__init__`
stores on `self`.  `conductance_matrix` stands for the crossbar set returned
by `init_crossbar` together with the `crossbar_operation` read accessor;
`non_linear` and `simulate_flag` model the presence of the `non_linear` /
`simulate` attributes probed with `hasattr`; `transform_output` is the stored
output-transform closure. -/
structure Conv3dLayer where
  in_channels : ℕ
  out_channels : ℕ
  kernel_size : ℕ × ℕ × ℕ
  stride : ℕ × ℕ × ℕ
  padding : ℕ × ℕ × ℕ
  weight : ℕ → ℕ → ℕ → ℕ → ℕ → ℚ
  bias : Option (ℕ → ℚ)
  weight_requires_grad : Bool
  bias_requires_grad : Bool
  tile_shape : Option (ℕ × ℕ)
  max_input_voltage : Option ℚ
  ADC_resolution : Option ℤ
  ADC_overflow_rate : Option ℚ
  quant_method : Option String
  forward_legacy_enabled : Bool
  non_linear : Bool
  simulate_flag : Bool
  conductance_matrix : ℕ → ℕ → ℚ
  transform_output : Tensor5 → Tensor5

/-- Modelled from the spec: `convert_range` (`memtorch.utils`, not under
`src/`) "affinely rescale[s] the padded input from its own [min,max] into
[-max_input_voltage, +max_input_voltage]". -/
def convertRange (v oldMin oldMax newMin newMax : ℚ) : ℚ :=
  (v - oldMin) * (newMax - newMin) / (oldMax - oldMin) + newMin

/-- Modelled from the spec: minimum entry of a 4-D tensor given as an index
function (torch `.min()` over the padded batch element). -/
def tensorMin (g : ℕ → ℕ → ℕ → ℕ → ℚ) (a b c d : ℕ) : ℚ :=
  (List.range (a * b * c * d)).foldl
    (fun m t => min m (g (t / (b * c * d)) (t / (c * d) % b) (t / d % c) (t % d)))
    (g 0 0 0 0)

/-- Modelled from the spec: maximum entry of a 4-D tensor given as an index
function (torch `.max()` over the padded batch element). -/
def tensorMax (g : ℕ → ℕ → ℕ → ℕ → ℚ) (a b c d : ℕ) : ℚ :=
  (List.range (a * b * c * d)).foldl
    (fun m t => max m (g (t / (b * c * d)) (t / (c * d) % b) (t / d % c) (t % d)))
    (g 0 0 0 0)

/-- One output dimension as the source computes it:
`int((size - kernel + 2*padding)/stride) + 1`, where Python `int(...)` of the
true division truncates toward zero — `Int.tdiv` is exactly that truncated
division. -/
def outDimT (size k p s : ℕ) : ℤ :=
  Int.tdiv ((size : ℤ) - (k : ℤ) + 2 * (p : ℤ)) (s : ℤ) + 1

/-- The per-batch-element input after the padding step: the source skips the
explicit `nn.functional.pad` call when every padding component is zero and
otherwise pads symmetrically per axis. -/
def batchInput (L : Conv3dLayer) (x : Tensor5) (n : ℕ) : ℕ → ℕ → ℕ → ℕ → ℚ :=
  if L.padding.1 = 0 ∧ L.padding.2.1 = 0 ∧ L.padding.2.2 = 0 then
    fun ic a b c => x.val n ic a b c
  else
    fun ic a b c => padVal x L.padding.1 L.padding.2.1 L.padding.2.2 n ic a b c

/-- The per-batch-element input after the optional voltage-encoding step:
when `max_input_voltage` is set, the padded input is rescaled from its own
`[min, max]` onto `[-max_input_voltage, max_input_voltage]` via
`convert_range`. -/
def condInput (L : Conv3dLayer) (x : Tensor5) (n : ℕ) : ℕ → ℕ → ℕ → ℕ → ℚ :=
  match L.max_input_voltage with
  | none => batchInput L x n
  | some v => fun ic a b c =>
      convertRange (batchInput L x n ic a b c)
        (tensorMin (batchInput L x n) L.in_channels
          (x.d + 2 * L.padding.1) (x.h + 2 * L.padding.2.1) (x.w + 2 * L.padding.2.2))
        (tensorMax (batchInput L x n) L.in_channels
          (x.d + 2 * L.padding.1) (x.h + 2 * L.padding.2.1) (x.w + 2 * L.padding.2.2))
        (-v) v

/-- The im2col unfolding of one conditioned batch element, as produced by the
chain `unfold(1,k0,s0).unfold(2,k1,s1).unfold(3,k2,s2)
.permute(1,2,3,0,4,5,6).reshape(-1, in_channels*k0*k1*k2)`: row = flattened
output position `(d, h, w)` (given the output spatial sizes `H`, `W` of the
two minor axes), column = flattened `(ic, i, j, l)` patch coordinate. -/
def unfoldedInput (L : Conv3dLayer) (x : Tensor5) (n H W row col : ℕ) : ℚ :=
  condInput L x n
    (col / (L.kernel_size.1 * L.kernel_size.2.1 * L.kernel_size.2.2))
    ((row / (H * W)) * L.stride.1 +
      (col % (L.kernel_size.1 * L.kernel_size.2.1 * L.kernel_size.2.2)) /
        (L.kernel_size.2.1 * L.kernel_size.2.2))
    (((row % (H * W)) / W) * L.stride.2.1 +
      (col % (L.kernel_size.2.1 * L.kernel_size.2.2)) / L.kernel_size.2.2)
    ((row % W) * L.stride.2.2 + col % L.kernel_size.2.2)

/-- The matrix-multiply dispatch for one batch element, read back at position
`(oc, row)` of the output slot.  Mirrors the source's branch structure:

* non-linear device mode: `simulate_matmul` is invoked through
  `crossbar_operation`, but — because the `out[batch] = out_.view(...)`
  assignment sits inside the *other* branch — its result `out_` is never
  written back, so the batch slot keeps its `torch.zeros` initialization;
* tiled mode: `tile_matmul` of the tiled unfolded input against the
  conductance matrix, transposed;
* plain mode: dense matmul of the unfolded input against the conductance
  matrix, transposed, then quantized iff a quantization method is stored. -/
def simEntry (ext : ExtOps) (L : Conv3dLayer) (x : Tensor5) (H W n oc row : ℕ) : ℚ :=
  if L.non_linear = true then
    let _discarded := ext.simulateMatmul (unfoldedInput L x n H W)
      (!L.simulate_flag) L.tile_shape L.max_input_voltage
      L.ADC_resolution L.ADC_overflow_rate L.quant_method
    0
  else
    match L.tile_shape with
    | some ts =>
        ext.tileMatmul (unfoldedInput L x n H W) L.conductance_matrix ts
          L.ADC_resolution L.ADC_overflow_rate L.quant_method row oc
    | none =>
        match L.quant_method with
        | some qm =>
            ext.quantize
              (fun oc2 row2 =>
                ∑ col ∈ Finset.range
                    (L.in_channels * L.kernel_size.1 * L.kernel_size.2.1 * L.kernel_size.2.2),
                  unfoldedInput L x n H W row2 col * L.conductance_matrix col oc2)
              L.ADC_resolution L.ADC_overflow_rate qm oc row
        | none =>
            ∑ col ∈ Finset.range
                (L.in_channels * L.kernel_size.1 * L.kernel_size.2.1 * L.kernel_size.2.2),
              unfoldedInput L x n H W row col * L.conductance_matrix col oc

/-- The output tensor `out` right after the batch loop (before the output
transform and the bias step): shape `[n, out_channels, D, H, W]` with each
batch slot filled by `out_.view(1, out_channels, D, H, W)`. -/
def simOutput (ext : ExtOps) (L : Conv3dLayer) (x : Tensor5) : Tensor5 :=
  let D := (outDimT x.d L.kernel_size.1 L.padding.1 L.stride.1).toNat
  let H := (outDimT x.h L.kernel_size.2.1 L.padding.2.1 L.stride.2.1).toNat
  let W := (outDimT x.w L.kernel_size.2.2 L.padding.2.2 L.stride.2.2).toNat
  ⟨x.n, L.out_channels, D, H, W,
    fun n oc d h w => simEntry ext L x H W n oc ((d * H + h) * W + w)⟩

/-- The bias step the source performs after the transform:
`out[batch] += bias.view(-1,1,1,1).expand_as(out[batch])`, where `batch` is
the loop variable left over from the batch loop — i.e. the bias lands only on
batch slot `x.n - 1`. -/
def biasStep (x : Tensor5) (b : ℕ → ℚ) (t : Tensor5) : Tensor5 :=
  ⟨t.n, t.c, t.d, t.h, t.w,
    fun n oc d h w => t.val n oc d h w + (if n + 1 = x.n then b oc else 0)⟩

/-- The in-loop `max_input_voltage` assertion fails: the stored value is set
but not strictly positive. -/
def voltageBad (L : Conv3dLayer) : Bool :=
  match L.max_input_voltage with
  | none => false
  | some v => decide (v ≤ 0)

/-- Simulated-mode forward pass (`Conv3d.forward`, `else` branch).  `none`
models the fatal errors of the source, in source order: `ZeroDivisionError`
computing `output_dim` with a zero stride; `torch.zeros` rejecting a negative
dimension; the in-loop voltage assertion; `Tensor.unfold` rejecting a window
larger than the padded axis (all in-loop failures fire only when the batch
loop runs, i.e. `1 ≤ x.n`); and, after the loop, the `NameError` from
`out[batch]` when the bias step runs with the loop variable never bound
(`x.n = 0`). -/
def forwardSim (ext : ExtOps) (L : Conv3dLayer) (x : Tensor5) : Option Tensor5 :=
  if L.stride.1 = 0 ∨ L.stride.2.1 = 0 ∨ L.stride.2.2 = 0 then none
  else if outDimT x.d L.kernel_size.1 L.padding.1 L.stride.1 < 0 ∨
      outDimT x.h L.kernel_size.2.1 L.padding.2.1 L.stride.2.1 < 0 ∨
      outDimT x.w L.kernel_size.2.2 L.padding.2.2 L.stride.2.2 < 0 then none
  else if 1 ≤ x.n ∧ voltageBad L = true then none
  else if 1 ≤ x.n ∧ (x.d + 2 * L.padding.1 < L.kernel_size.1 ∨
      x.h + 2 * L.padding.2.1 < L.kernel_size.2.1 ∨
      x.w + 2 * L.padding.2.2 < L.kernel_size.2.2) then none
  else
    let post := L.transform_output (simOutput ext L x)
    match L.bias with
    | none => some post
    | some b => if x.n = 0 then none else some (biasStep x b post)

/-- `Conv3d.forward`: legacy mode delegates to the dense reference
convolution with the stored weight, bias, stride and padding; otherwise the
simulated pipeline runs. -/
def Conv3dLayer.forward (ext : ExtOps) (L : Conv3dLayer) (x : Tensor5) : Option Tensor5 :=
  if L.forward_legacy_enabled then
    conv3dRef L.in_channels L.out_channels L.kernel_size L.stride L.padding L.weight L.bias x
  else forwardSim ext L x

/-- State-passing form of `Conv3d.forward`.  The Python method body contains
no assignment to any `self` attribute, so the returned state is the input
state unchanged. -/
def Conv3dLayer.forwardM (ext : ExtOps) (L : Conv3dLayer) (x : Tensor5) :
    Conv3dLayer × Option Tensor5 :=
  (L, Conv3dLayer.forward ext L x)

/-- `Conv3d.tune`: `self.transform_output = naive_tune(self, (batch_size,
in_channels, sz, sz, sz), verbose)`.  `naive_tune` (`memtorch.map.Module`, not
under `src/`) is abstracted as an arbitrary fitting function `fit` of the
current layer state and the synthetic-input sizes; the assignment replaces
the stored transform wholesale. -/
def Conv3dLayer.tune (fit : Conv3dLayer → ℕ → ℕ → (Tensor5 → Tensor5))
    (L : Conv3dLayer) (input_batch_size input_shape : ℕ) : Conv3dLayer :=
  { L with transform_output := fit L input_batch_size input_shape }

/-- The source constructor data: the fields read off the patched
`nn.Conv3d` source layer. -/
structure SourceConv3d where
  in_channels : ℕ
  out_channels : ℕ
  kernel_size : ℕ × ℕ × ℕ
  stride : ℕ × ℕ × ℕ
  padding : ℕ × ℕ × ℕ
  weight : ℕ → ℕ → ℕ → ℕ → ℕ → ℚ
  bias : Option (ℕ → ℚ)

/-- `Conv3d.__init__`.  Mirrors the source's validation order: a
`quant_method` outside the supported list is silently coerced to `None`
*before* the assertions, while the assertions fire off the *original*
`quant_method` argument — so any non-`None` `quant_method` (valid or not)
demands a positive integer `ADC_resolution` and a non-`None`
`ADC_overflow_rate`.  `max_input_voltage` is stored unchecked.  Gradient
tracking is disabled on the copied weight and bias, the flag
`forward_legacy_enabled` starts `true`, and the transform starts as the
identity closure `lambda x: x`. -/
def mkConv3d (src : SourceConv3d) (tile_shape : Option (ℕ × ℕ))
    (max_input_voltage : Option ℚ) (ADC_resolution : Option ℤ)
    (ADC_overflow_rate : Option ℚ) (quant_method : Option String)
    (G : ℕ → ℕ → ℚ) : Option Conv3dLayer :=
  if quant_method.isSome &&
      !((match ADC_resolution with
         | some r => decide (0 < r)
         | none => false) && ADC_overflow_rate.isSome) then none
  else
    some
      { in_channels := src.in_channels
        out_channels := src.out_channels
        kernel_size := src.kernel_size
        stride := src.stride
        padding := src.padding
        weight := src.weight
        bias := src.bias
        weight_requires_grad := false
        bias_requires_grad := false
        tile_shape := tile_shape
        max_input_voltage := max_input_voltage
        ADC_resolution := ADC_resolution
        ADC_overflow_rate := ADC_overflow_rate
        quant_method :=
          match quant_method with
          | some s => if quantMethodNames.contains s then some s else none
          | none => none
        forward_legacy_enabled := true
        non_linear := false
        simulate_flag := false
        conductance_matrix := G
        transform_output := fun t => t }

/-- Two optional tensors agree: both present, same shape, and equal entries at
every in-range index. -/
def agreeOnShape : Option Tensor5 → Option Tensor5 → Prop
  | some o, some r =>
      o.n = r.n ∧ o.c = r.c ∧ o.d = r.d ∧ o.h = r.h ∧ o.w = r.w ∧
      ∀ n oc d h w, n < o.n → oc < o.c → d < o.d → h < o.h → w < o.w →
        o.val n oc d h w = r.val n oc d h w
  | _, _ => False

/-! ### Concrete fixtures for the spec's scenarios and the counterexamples -/

/-- Trivial external collaborators (all results zero). -/
def extZero : ExtOps :=
  ⟨fun _ _ _ _ _ _ _ => fun _ _ => 0,
   fun _ _ _ _ _ _ => fun _ _ => 0,
   fun _ _ _ _ => fun _ _ => 0⟩

/-- External collaborators whose device-model simulation returns the constant
42 everywhere, to exhibit where its result goes. -/
def extFortyTwo : ExtOps :=
  ⟨fun _ _ _ _ _ _ _ => fun _ _ => 42,
   fun _ _ _ _ _ _ => fun _ _ => 0,
   fun _ _ _ _ => fun _ _ => 0⟩

/-- All-ones weight tensor. -/
def onesW : ℕ → ℕ → ℕ → ℕ → ℕ → ℚ := fun _ _ _ _ _ => 1

/-- The spec's concrete scenario in simulated mode: 1 input and 1 output
channel, kernel (2,2,2), stride (1,1,1), padding (0,0,0), all-ones weights
realized exactly by the conductance matrix, bias [5], ideal configuration. -/
def layerBias5 : Conv3dLayer :=
  { in_channels := 1, out_channels := 1,
    kernel_size := (2, 2, 2), stride := (1, 1, 1), padding := (0, 0, 0),
    weight := onesW, bias := some (fun _ => 5),
    weight_requires_grad := false, bias_requires_grad := false,
    tile_shape := none, max_input_voltage := none,
    ADC_resolution := none, ADC_overflow_rate := some 0, quant_method := none,
    forward_legacy_enabled := false, non_linear := false, simulate_flag := false,
    conductance_matrix := fun _ _ => 1,
    transform_output := fun t => t }

/-- The same scenario without a bias. -/
def layerNoBias : Conv3dLayer := { layerBias5 with bias := none }

/-- The same scenario in non-linear device mode, no bias. -/
def layerNonLinear : Conv3dLayer := { layerBias5 with non_linear := true, bias := none }

/-- The same scenario with an invalid (non-positive) stored voltage bound. -/
def layerBadVolt : Conv3dLayer := { layerBias5 with max_input_voltage := some (-1) }

/-- Kernel 2, stride 2, no bias: on a size-1 axis the output-size numerator
is negative. -/
def layerK2S2 : Conv3dLayer :=
  { layerBias5 with kernel_size := (2, 2, 2), stride := (2, 2, 2), bias := none }

/-- All-ones input of shape [2, 1, 3, 3, 3]. -/
def xOnes2 : Tensor5 := ⟨2, 1, 3, 3, 3, fun _ _ _ _ _ => 1⟩

/-- Empty-batch input of shape [0, 1, 3, 3, 3]. -/
def xEmpty : Tensor5 := ⟨0, 1, 3, 3, 3, fun _ _ _ _ _ => 1⟩

/-- Empty-batch input with singleton spatial axes: shape [0, 1, 1, 1, 1]. -/
def xTiny0 : Tensor5 := ⟨0, 1, 1, 1, 1, fun _ _ _ _ _ => 1⟩

/-- A source dense convolution for the constructor claims. -/
def srcSmall : SourceConv3d :=
  { in_channels := 1, out_channels := 1, kernel_size := (2, 2, 2),
    stride := (1, 1, 1), padding := (0, 0, 0),
    weight := onesW, bias := some (fun _ => 5) }

/-! ### Arithmetic helpers for the flattened-index bookkeeping -/

/-- Splitting a sum over `range (a * b)` into a double sum, reindexed by
`i * b + j`. -/
lemma sum_range_mul_split (a b : ℕ) (f : ℕ → ℚ) :
    ∑ t ∈ Finset.range (a * b), f t
      = ∑ i ∈ Finset.range a, ∑ j ∈ Finset.range b, f (i * b + j) := by
  induction a with
  | zero => simp
  | succ m ih =>
      rw [Nat.succ_mul, Finset.sum_range_add, ih, Finset.sum_range_succ]

/-- The flattened index `i * m + r` stays below `n * m` when `i < n`, `r < m`. -/
lemma encode_lt {i r n m : ℕ} (hi : i < n) (hr : r < m) : i * m + r < n * m :=
  calc i * m + r < i * m + m := by omega
    _ = (i + 1) * m := by ring
    _ ≤ n * m := Nat.mul_le_mul_right m hi

/-- Decoding the major part of a flattened index. -/
lemma encode_div (i r m : ℕ) (hr : r < m) : (i * m + r) / m = i := by
  have hm : 0 < m := by omega
  rw [Nat.mul_comm i m, Nat.mul_add_div hm, Nat.div_eq_of_lt hr]
  omega

/-- Decoding the minor part of a flattened index. -/
lemma encode_mod (i r m : ℕ) (hr : r < m) : (i * m + r) % m = r := by
  rw [Nat.add_comm, Nat.mul_comm, Nat.add_mul_mod_self_left, Nat.mod_eq_of_lt hr]

/-- When the kernel fits into the padded axis, the source's truncated output
dimension coincides with the (nonnegative) natural floor-division formula. -/
lemma outDimT_eq_of_le (size k p s : ℕ) (hk : k ≤ size + 2 * p) :
    outDimT size k p s = (((size + 2 * p - k) / s + 1 : ℕ) : ℤ) := by
  unfold outDimT
  have h1 : (size : ℤ) - (k : ℤ) + 2 * (p : ℤ) = ((size + 2 * p - k : ℕ) : ℤ) := by omega
  rw [h1]
  have h2 : Int.tdiv ((size + 2 * p - k : ℕ) : ℤ) ((s : ℕ) : ℤ)
      = (((size + 2 * p - k) / s : ℕ) : ℤ) := rfl
  rw [h2]
  push_cast
  ring

/-- Core reindexing identity: the flattened-column matrix product of an
im2col row against a conductance matrix that realizes a weight tensor equals
the nested receptive-field sum of the dense convolution at the corresponding
output position. -/
lemma unfold_matmul_eq (C k0 k1 k2 s0 s1 s2 : ℕ)
    (g : ℕ → ℕ → ℕ → ℕ → ℚ) (G : ℕ → ℕ → ℚ)
    (wt : ℕ → ℕ → ℕ → ℕ → ℕ → ℚ) (oc : ℕ)
    (hG : ∀ ic i j l, ic < C → i < k0 → j < k1 → l < k2 →
        G (ic * (k0 * k1 * k2) + i * (k1 * k2) + j * k2 + l) oc = wt oc ic i j l)
    (d h w H W : ℕ) (hh : h < H) (hw : w < W) :
    ∑ col ∈ Finset.range (C * k0 * k1 * k2),
      g (col / (k0 * k1 * k2))
        ((((d * H + h) * W + w) / (H * W)) * s0 + (col % (k0 * k1 * k2)) / (k1 * k2))
        (((((d * H + h) * W + w) % (H * W)) / W) * s1 + (col % (k1 * k2)) / k2)
        ((((d * H + h) * W + w) % W) * s2 + col % k2)
      * G col oc
    = ∑ ic ∈ Finset.range C, ∑ i ∈ Finset.range k0, ∑ j ∈ Finset.range k1,
        ∑ l ∈ Finset.range k2,
          wt oc ic i j l * g ic (d * s0 + i) (h * s1 + j) (w * s2 + l) := by
  have hHW : h * W + w < H * W := encode_lt hh hw
  have hrowEq : (d * H + h) * W + w = d * (H * W) + (h * W + w) := by ring
  have hrow1 : ((d * H + h) * W + w) / (H * W) = d := by
    rw [hrowEq]; exact encode_div _ _ _ hHW
  have hrow2 : (((d * H + h) * W + w) % (H * W)) / W = h := by
    rw [hrowEq, encode_mod _ _ _ hHW, encode_div _ _ _ hw]
  have hrow3 : ((d * H + h) * W + w) % W = w := encode_mod _ _ _ hw
  simp only [hrow1, hrow2, hrow3]
  rw [show C * k0 * k1 * k2 = C * (k0 * (k1 * k2)) by ring]
  simp only [sum_range_mul_split]
  refine Finset.sum_congr rfl fun ic hic => ?_
  refine Finset.sum_congr rfl fun i hi => ?_
  refine Finset.sum_congr rfl fun j hj => ?_
  refine Finset.sum_congr rfl fun l hl => ?_
  rw [Finset.mem_range] at hic hi hj hl
  have hjl : j * k2 + l < k1 * k2 := encode_lt hj hl
  have hinner : i * (k1 * k2) + (j * k2 + l) < k0 * (k1 * k2) := encode_lt hi hjl
  have e1 : (ic * (k0 * (k1 * k2)) + (i * (k1 * k2) + (j * k2 + l))) / (k0 * k1 * k2)
      = ic := by
    rw [show k0 * k1 * k2 = k0 * (k1 * k2) by ring]
    exact encode_div _ _ _ hinner
  have e2 : (ic * (k0 * (k1 * k2)) + (i * (k1 * k2) + (j * k2 + l))) % (k0 * k1 * k2)
        / (k1 * k2) = i := by
    rw [show k0 * k1 * k2 = k0 * (k1 * k2) by ring, encode_mod _ _ _ hinner]
    exact encode_div _ _ _ hjl
  have e3 : (ic * (k0 * (k1 * k2)) + (i * (k1 * k2) + (j * k2 + l))) % (k1 * k2)
        / k2 = j := by
    rw [show ic * (k0 * (k1 * k2)) + (i * (k1 * k2) + (j * k2 + l))
        = (ic * k0 + i) * (k1 * k2) + (j * k2 + l) by ring,
      encode_mod _ _ _ hjl]
    exact encode_div _ _ _ hl
  have e4 : (ic * (k0 * (k1 * k2)) + (i * (k1 * k2) + (j * k2 + l))) % k2 = l := by
    rw [show ic * (k0 * (k1 * k2)) + (i * (k1 * k2) + (j * k2 + l))
        = ((ic * k0 + i) * k1 + j) * k2 + l by ring]
    exact encode_mod _ _ _ hl
  have e5 : G (ic * (k0 * (k1 * k2)) + (i * (k1 * k2) + (j * k2 + l))) oc
      = wt oc ic i j l := by
    rw [show ic * (k0 * (k1 * k2)) + (i * (k1 * k2) + (j * k2 + l))
        = ic * (k0 * k1 * k2) + i * (k1 * k2) + j * k2 + l by ring]
    exact hG ic i j l hic hi hj hl
  rw [e1, e2, e3, e4, e5, mul_comm]

/-- For in-range accesses the skip-padding optimization agrees with the
explicitly padded tensor. -/
lemma batchInput_eq_padVal (L : Conv3dLayer) (x : Tensor5) (n ic a b c : ℕ)
    (ha : a < x.d + 2 * L.padding.1) (hb2 : b < x.h + 2 * L.padding.2.1)
    (hc : c < x.w + 2 * L.padding.2.2) :
    batchInput L x n ic a b c
      = padVal x L.padding.1 L.padding.2.1 L.padding.2.2 n ic a b c := by
  unfold batchInput
  split
  · rename_i hp
    obtain ⟨e0, e1, e2⟩ := hp
    simp only [e0, e1, e2] at ha hb2 hc ⊢
    unfold padVal
    rw [if_pos (by omega)]
    simp
  · rfl

/-- One output dimension by the standard (floor) convolution formula, in ℕ. -/
def outDimN (size k p s : ℕ) : ℕ := (size + 2 * p - k) / s + 1

/-- When the kernel fits, the source's truncated dimension, as a natural
number, is the floor formula. -/
lemma outDimT_toNat (size k p s : ℕ) (hk : k ≤ size + 2 * p) :
    (outDimT size k p s).toNat = outDimN size k p s := by
  rw [outDimT_eq_of_le size k p s hk, Int.toNat_natCast, outDimN]

/-- Under the ideal configuration (no tiling, no quantization, no voltage
bound, linear device mode) and an ideal conductance matrix realizing the
weight tensor, each entry the simulated pipeline writes into a batch slot is
exactly the dense-convolution receptive-field sum at that output position. -/
lemma simEntry_ideal (ext : ExtOps) (L : Conv3dLayer) (x : Tensor5)
    (htile : L.tile_shape = none) (hq : L.quant_method = none)
    (hv : L.max_input_voltage = none) (hnl : L.non_linear = false)
    (hG : ∀ oc ic i j l, ic < L.in_channels → i < L.kernel_size.1 →
      j < L.kernel_size.2.1 → l < L.kernel_size.2.2 →
      L.conductance_matrix
        (ic * (L.kernel_size.1 * L.kernel_size.2.1 * L.kernel_size.2.2) +
          i * (L.kernel_size.2.1 * L.kernel_size.2.2) + j * L.kernel_size.2.2 + l) oc
        = L.weight oc ic i j l)
    (hfit0 : L.kernel_size.1 ≤ x.d + 2 * L.padding.1)
    (hfit1 : L.kernel_size.2.1 ≤ x.h + 2 * L.padding.2.1)
    (hfit2 : L.kernel_size.2.2 ≤ x.w + 2 * L.padding.2.2)
    (n oc d h w : ℕ)
    (hd : d < outDimN x.d L.kernel_size.1 L.padding.1 L.stride.1)
    (hh : h < outDimN x.h L.kernel_size.2.1 L.padding.2.1 L.stride.2.1)
    (hw : w < outDimN x.w L.kernel_size.2.2 L.padding.2.2 L.stride.2.2) :
    simEntry ext L x
        (outDimN x.h L.kernel_size.2.1 L.padding.2.1 L.stride.2.1)
        (outDimN x.w L.kernel_size.2.2 L.padding.2.2 L.stride.2.2)
        n oc
        ((d * outDimN x.h L.kernel_size.2.1 L.padding.2.1 L.stride.2.1 + h) *
            outDimN x.w L.kernel_size.2.2 L.padding.2.2 L.stride.2.2 + w)
      = ∑ ic ∈ Finset.range L.in_channels, ∑ i ∈ Finset.range L.kernel_size.1,
          ∑ j ∈ Finset.range L.kernel_size.2.1, ∑ l ∈ Finset.range L.kernel_size.2.2,
            L.weight oc ic i j l *
              padVal x L.padding.1 L.padding.2.1 L.padding.2.2 n ic
                (d * L.stride.1 + i) (h * L.stride.2.1 + j) (w * L.stride.2.2 + l) := by
  simp only [simEntry, hnl, htile, hq, Bool.false_eq_true, if_false]
  simp only [unfoldedInput, condInput, hv]
  rw [unfold_matmul_eq L.in_channels L.kernel_size.1 L.kernel_size.2.1 L.kernel_size.2.2
    L.stride.1 L.stride.2.1 L.stride.2.2 (batchInput L x n) L.conductance_matrix
    L.weight oc (fun ic i j l hic hi hj hl => hG oc ic i j l hic hi hj hl)
    d h w _ _ hh hw]
  refine Finset.sum_congr rfl fun ic _ => ?_
  refine Finset.sum_congr rfl fun i hi => ?_
  refine Finset.sum_congr rfl fun j hj => ?_
  refine Finset.sum_congr rfl fun l hl => ?_
  rw [Finset.mem_range] at hi hj hl
  rw [batchInput_eq_padVal]
  · have h1 : d * L.stride.1 ≤ x.d + 2 * L.padding.1 - L.kernel_size.1 :=
      le_trans (Nat.mul_le_mul_right _ (by
        have := hd; unfold outDimN at this; omega))
      (Nat.div_mul_le_self _ _)
    omega
  · have h1 : h * L.stride.2.1 ≤ x.h + 2 * L.padding.2.1 - L.kernel_size.2.1 :=
      le_trans (Nat.mul_le_mul_right _ (by
        have := hh; unfold outDimN at this; omega))
      (Nat.div_mul_le_self _ _)
    omega
  · have h1 : w * L.stride.2.2 ≤ x.w + 2 * L.padding.2.2 - L.kernel_size.2.2 :=
      le_trans (Nat.mul_le_mul_right _ (by
        have := hw; unfold outDimN at this; omega))
      (Nat.div_mul_le_self _ _)
    omega

/-- C3 (amended): with no tiling, no quantization, no voltage bound, a linear
(ideal) device mode, the identity output transform and an ideal conductance
matrix, the simulated forward output matches the dense reference convolution
on every in-range index — except that with a non-`None` bias the simulated
path delivers the bias only to the last batch slot, so agreement on a batch
element with a non-`None` bias additionally requires that element to be the
last one. -/
theorem conv3d_sim_refines_dense (ext : ExtOps) (L : Conv3dLayer) (x : Tensor5)
    (htile : L.tile_shape = none) (hq : L.quant_method = none)
    (hv : L.max_input_voltage = none) (hnl : L.non_linear = false)
    (htr : L.transform_output = fun t => t)
    (hG : ∀ oc ic i j l, ic < L.in_channels → i < L.kernel_size.1 →
      j < L.kernel_size.2.1 → l < L.kernel_size.2.2 →
      L.conductance_matrix
        (ic * (L.kernel_size.1 * L.kernel_size.2.1 * L.kernel_size.2.2) +
          i * (L.kernel_size.2.1 * L.kernel_size.2.2) + j * L.kernel_size.2.2 + l) oc
        = L.weight oc ic i j l)
    (hk0 : 0 < L.kernel_size.1) (hk1 : 0 < L.kernel_size.2.1)
    (hk2 : 0 < L.kernel_size.2.2)
    (hs0 : 0 < L.stride.1) (hs1 : 0 < L.stride.2.1) (hs2 : 0 < L.stride.2.2)
    (hfit0 : L.kernel_size.1 ≤ x.d + 2 * L.padding.1)
    (hfit1 : L.kernel_size.2.1 ≤ x.h + 2 * L.padding.2.1)
    (hfit2 : L.kernel_size.2.2 ≤ x.w + 2 * L.padding.2.2)
    (hbn : L.bias = none ∨ 1 ≤ x.n) :
    (forwardSim ext L x).isSome ∧
    (conv3dRef L.in_channels L.out_channels L.kernel_size L.stride L.padding
      L.weight L.bias x).isSome ∧
    ∀ o r, forwardSim ext L x = some o →
      conv3dRef L.in_channels L.out_channels L.kernel_size L.stride L.padding
        L.weight L.bias x = some r →
      o.n = r.n ∧ o.c = r.c ∧ o.d = r.d ∧ o.h = r.h ∧ o.w = r.w ∧
      ∀ n oc d h w, n < o.n → oc < o.c → d < o.d → h < o.h → w < o.w →
        (L.bias = none ∨ n + 1 = x.n) →
        o.val n oc d h w = r.val n oc d h w := by
  have hodN0 : (outDimT x.d L.kernel_size.1 L.padding.1 L.stride.1).toNat
      = outDimN x.d L.kernel_size.1 L.padding.1 L.stride.1 :=
    outDimT_toNat _ _ _ _ hfit0
  have hodN1 : (outDimT x.h L.kernel_size.2.1 L.padding.2.1 L.stride.2.1).toNat
      = outDimN x.h L.kernel_size.2.1 L.padding.2.1 L.stride.2.1 :=
    outDimT_toNat _ _ _ _ hfit1
  have hodN2 : (outDimT x.w L.kernel_size.2.2 L.padding.2.2 L.stride.2.2).toNat
      = outDimN x.w L.kernel_size.2.2 L.padding.2.2 L.stride.2.2 :=
    outDimT_toNat _ _ _ _ hfit2
  have hod0 : ¬ outDimT x.d L.kernel_size.1 L.padding.1 L.stride.1 < 0 := by
    rw [outDimT_eq_of_le _ _ _ _ hfit0]
    exact not_lt.mpr (Int.natCast_nonneg _)
  have hod1 : ¬ outDimT x.h L.kernel_size.2.1 L.padding.2.1 L.stride.2.1 < 0 := by
    rw [outDimT_eq_of_le _ _ _ _ hfit1]
    exact not_lt.mpr (Int.natCast_nonneg _)
  have hod2 : ¬ outDimT x.w L.kernel_size.2.2 L.padding.2.2 L.stride.2.2 < 0 := by
    rw [outDimT_eq_of_le _ _ _ _ hfit2]
    exact not_lt.mpr (Int.natCast_nonneg _)
  have hfs : forwardSim ext L x =
      (match L.bias with
       | none => some (simOutput ext L x)
       | some b => if x.n = 0 then none
                   else some (biasStep x b (simOutput ext L x))) := by
    unfold forwardSim
    rw [if_neg (by omega), if_neg (not_or.mpr ⟨hod0, not_or.mpr ⟨hod1, hod2⟩⟩),
      if_neg (by simp [voltageBad, hv]), if_neg (by omega)]
    rw [htr]
  have hcr : conv3dRef L.in_channels L.out_channels L.kernel_size L.stride L.padding
      L.weight L.bias x =
      some ⟨x.n, L.out_channels,
        outDimN x.d L.kernel_size.1 L.padding.1 L.stride.1,
        outDimN x.h L.kernel_size.2.1 L.padding.2.1 L.stride.2.1,
        outDimN x.w L.kernel_size.2.2 L.padding.2.2 L.stride.2.2,
        fun n oc d h w =>
          (match L.bias with | none => 0 | some b => b oc) +
          ∑ ic ∈ Finset.range L.in_channels, ∑ i ∈ Finset.range L.kernel_size.1,
            ∑ j ∈ Finset.range L.kernel_size.2.1, ∑ l ∈ Finset.range L.kernel_size.2.2,
              L.weight oc ic i j l *
                padVal x L.padding.1 L.padding.2.1 L.padding.2.2 n ic
                  (d * L.stride.1 + i) (h * L.stride.2.1 + j) (w * L.stride.2.2 + l)⟩ := by
    unfold conv3dRef
    rw [if_neg (by omega)]
    rfl
  have hsimval : ∀ n oc d h w,
      d < outDimN x.d L.kernel_size.1 L.padding.1 L.stride.1 →
      h < outDimN x.h L.kernel_size.2.1 L.padding.2.1 L.stride.2.1 →
      w < outDimN x.w L.kernel_size.2.2 L.padding.2.2 L.stride.2.2 →
      (simOutput ext L x).val n oc d h w =
        ∑ ic ∈ Finset.range L.in_channels, ∑ i ∈ Finset.range L.kernel_size.1,
          ∑ j ∈ Finset.range L.kernel_size.2.1, ∑ l ∈ Finset.range L.kernel_size.2.2,
            L.weight oc ic i j l *
              padVal x L.padding.1 L.padding.2.1 L.padding.2.2 n ic
                (d * L.stride.1 + i) (h * L.stride.2.1 + j) (w * L.stride.2.2 + l) := by
    intro n oc d h w hd hh hw
    show simEntry ext L x _ _ n oc _ = _
    rw [hodN1, hodN2]
    exact simEntry_ideal ext L x htile hq hv hnl hG hfit0 hfit1 hfit2 n oc d h w hd hh hw
  refine ⟨?_, ?_, ?_⟩
  · rw [hfs]
    cases hb : L.bias with
    | none => simp
    | some b =>
        have hn1 : 1 ≤ x.n := by
          rcases hbn with h | h
          · rw [hb] at h; exact absurd h (by simp)
          · exact h
        have hnz : ¬ x.n = 0 := by omega
        simp [hnz]
  · rw [hcr]; simp
  · intro o r ho hr
    rw [hcr] at hr
    have hr' := (Option.some.inj hr).symm
    subst hr'
    rw [hfs] at ho
    cases hb : L.bias with
    | none =>
        simp only [hb] at ho
        have ho' := (Option.some.inj ho).symm
        subst ho'
        refine ⟨by rfl, by rfl, ?_, ?_, ?_, ?_⟩
        · show (outDimT _ _ _ _).toNat = _; rw [hodN0]
        · show (outDimT _ _ _ _).toNat = _; rw [hodN1]
        · show (outDimT _ _ _ _).toNat = _; rw [hodN2]
        · intro n oc d h w hn hoc hd hh hw _
          have hd' : d < outDimN x.d L.kernel_size.1 L.padding.1 L.stride.1 := by
            rw [← hodN0]; exact hd
          have hh' : h < outDimN x.h L.kernel_size.2.1 L.padding.2.1 L.stride.2.1 := by
            rw [← hodN1]; exact hh
          have hw' : w < outDimN x.w L.kernel_size.2.2 L.padding.2.2 L.stride.2.2 := by
            rw [← hodN2]; exact hw
          rw [hsimval n oc d h w hd' hh' hw']
          simp [hb]
    | some b =>
        simp only [hb] at ho
        have hn1 : 1 ≤ x.n := by
          rcases hbn with h | h
          · rw [hb] at h; exact absurd h (by simp)
          · exact h
        rw [if_neg (by omega)] at ho
        have ho' := (Option.some.inj ho).symm
        subst ho'
        refine ⟨by rfl, by rfl, ?_, ?_, ?_, ?_⟩
        · show (outDimT _ _ _ _).toNat = _; rw [hodN0]
        · show (outDimT _ _ _ _).toNat = _; rw [hodN1]
        · show (outDimT _ _ _ _).toNat = _; rw [hodN2]
        · intro n oc d h w hn hoc hd hh hw hlast
          have hlast' : n + 1 = x.n := by
            rcases hlast with h | h
            · exact absurd h (by simp)
            · exact h
          have hd' : d < outDimN x.d L.kernel_size.1 L.padding.1 L.stride.1 := by
            rw [← hodN0]; exact hd
          have hh' : h < outDimN x.h L.kernel_size.2.1 L.padding.2.1 L.stride.2.1 := by
            rw [← hodN1]; exact hh
          have hw' : w < outDimN x.w L.kernel_size.2.2 L.padding.2.2 L.stride.2.2 := by
            rw [← hodN2]; exact hw
          show (simOutput ext L x).val n oc d h w + (if n + 1 = x.n then b oc else 0)
              = _
          rw [hsimval n oc d h w hd' hh' hw', if_pos hlast']
          simp [hb, add_comm]

/-! ### Claim theorems -/

/-- C1: evaluating the simulated forward at the spec's concrete scenario with
bias `[5]` and batch size 2 — the source adds the bias only to the
last-iterated batch slot (`out[batch] += ...` after the loop), so batch
element 0 reads `8` (no bias) while batch element 1 reads `13`. -/
theorem conv3d_bias_only_last_batch_slot :
    (forwardSim extZero layerBias5 xOnes2).map
        (fun t => (t.val 0 0 0 0 0, t.val 1 0 0 0 0)) = some (8, 13) := by
  simp only [forwardSim, simOutput, simEntry, unfoldedInput, condInput, batchInput,
    outDimT, biasStep, voltageBad, layerBias5, xOnes2, extZero, onesW]
  norm_num [Finset.sum_range_succ]

/-- C2: with the non-linear device mode active, the device-model simulation
result (here the constant 42) is computed but never written into the output
slot — the stored output entry keeps its zero initialization. -/
theorem conv3d_nonlinear_result_discarded :
    (forwardSim extFortyTwo layerNonLinear xOnes2).map
        (fun t => t.val 0 0 0 0 0) = some 0 ∧
    extFortyTwo.simulateMatmul (unfoldedInput layerNonLinear xOnes2 0 2 2)
      true none none none none none 0 0 = 42 := by
  constructor
  · simp only [forwardSim, simOutput, simEntry, unfoldedInput, condInput, batchInput,
      outDimT, biasStep, voltageBad, layerNonLinear, layerBias5, xOnes2, extFortyTwo]
    norm_num
  · rfl

/-- C3 counterexample: at the concrete bias scenario with batch size 2, the
simulated output differs from the dense reference convolution on batch
element 0 (8 without the bias versus 13 with it). -/
theorem conv3d_sim_ne_dense_with_bias_batch2 :
    (forwardSim extZero layerBias5 xOnes2).map (fun t => t.val 0 0 0 0 0) = some 8 ∧
    (conv3dRef 1 1 (2, 2, 2) (1, 1, 1) (0, 0, 0) onesW (some (fun _ => 5)) xOnes2).map
        (fun t => t.val 0 0 0 0 0) = some 13 ∧
    (forwardSim extZero layerBias5 xOnes2).map (fun t => t.val 0 0 0 0 0) ≠
      (conv3dRef 1 1 (2, 2, 2) (1, 1, 1) (0, 0, 0) onesW (some (fun _ => 5)) xOnes2).map
        (fun t => t.val 0 0 0 0 0) := by
  refine ⟨?_, ?_, ?_⟩
  · simp only [forwardSim, simOutput, simEntry, unfoldedInput, condInput, batchInput,
      outDimT, biasStep, voltageBad, layerBias5, xOnes2, extZero, onesW]
    norm_num [Finset.sum_range_succ]
  · simp only [conv3dRef, padVal, xOnes2, onesW]
    norm_num [Finset.sum_range_succ, -Finset.sum_boole]
  · intro hcontra
    have h1 : (forwardSim extZero layerBias5 xOnes2).map (fun t => t.val 0 0 0 0 0)
        = some 8 := by
      simp only [forwardSim, simOutput, simEntry, unfoldedInput, condInput, batchInput,
        outDimT, biasStep, voltageBad, layerBias5, xOnes2, extZero, onesW]
      norm_num [Finset.sum_range_succ]
    have h2 : (conv3dRef 1 1 (2, 2, 2) (1, 1, 1) (0, 0, 0) onesW (some (fun _ => 5))
        xOnes2).map (fun t => t.val 0 0 0 0 0) = some 13 := by
      simp only [conv3dRef, padVal, xOnes2, onesW]
      norm_num [Finset.sum_range_succ, -Finset.sum_boole]
    rw [h1, h2] at hcontra
    norm_num at hcontra

/-- C3 witness: the refinement theorem instantiated at the concrete bias-free
scenario, with every hypothesis discharged there. -/
theorem conv3d_sim_refines_dense_witness :
    layerNoBias.tile_shape = none ∧ layerNoBias.quant_method = none ∧
    layerNoBias.max_input_voltage = none ∧ layerNoBias.non_linear = false ∧
    layerNoBias.transform_output = (fun t => t) ∧
    (∀ oc ic i j l, ic < layerNoBias.in_channels → i < layerNoBias.kernel_size.1 →
      j < layerNoBias.kernel_size.2.1 → l < layerNoBias.kernel_size.2.2 →
      layerNoBias.conductance_matrix
        (ic * (layerNoBias.kernel_size.1 * layerNoBias.kernel_size.2.1 *
            layerNoBias.kernel_size.2.2) +
          i * (layerNoBias.kernel_size.2.1 * layerNoBias.kernel_size.2.2) +
          j * layerNoBias.kernel_size.2.2 + l) oc
        = layerNoBias.weight oc ic i j l) ∧
    0 < layerNoBias.kernel_size.1 ∧ 0 < layerNoBias.kernel_size.2.1 ∧
    0 < layerNoBias.kernel_size.2.2 ∧ 0 < layerNoBias.stride.1 ∧
    0 < layerNoBias.stride.2.1 ∧ 0 < layerNoBias.stride.2.2 ∧
    layerNoBias.kernel_size.1 ≤ xOnes2.d + 2 * layerNoBias.padding.1 ∧
    layerNoBias.kernel_size.2.1 ≤ xOnes2.h + 2 * layerNoBias.padding.2.1 ∧
    layerNoBias.kernel_size.2.2 ≤ xOnes2.w + 2 * layerNoBias.padding.2.2 ∧
    (layerNoBias.bias = none ∨ 1 ≤ xOnes2.n) ∧
    ((forwardSim extZero layerNoBias xOnes2).isSome ∧
     (conv3dRef layerNoBias.in_channels layerNoBias.out_channels
        layerNoBias.kernel_size layerNoBias.stride layerNoBias.padding
        layerNoBias.weight layerNoBias.bias xOnes2).isSome ∧
     ∀ o r, forwardSim extZero layerNoBias xOnes2 = some o →
       conv3dRef layerNoBias.in_channels layerNoBias.out_channels
         layerNoBias.kernel_size layerNoBias.stride layerNoBias.padding
         layerNoBias.weight layerNoBias.bias xOnes2 = some r →
       o.n = r.n ∧ o.c = r.c ∧ o.d = r.d ∧ o.h = r.h ∧ o.w = r.w ∧
       ∀ n oc d h w, n < o.n → oc < o.c → d < o.d → h < o.h → w < o.w →
         (layerNoBias.bias = none ∨ n + 1 = xOnes2.n) →
         o.val n oc d h w = r.val n oc d h w) :=
  ⟨rfl, rfl, rfl, rfl, rfl, fun _ _ _ _ _ _ _ _ _ => rfl,
   by decide, by decide, by decide, by decide, by decide, by decide,
   by decide, by decide, by decide, Or.inl rfl,
   conv3d_sim_refines_dense extZero layerNoBias xOnes2 rfl rfl rfl rfl rfl
     (fun _ _ _ _ _ _ _ _ _ => rfl)
     (by decide) (by decide) (by decide) (by decide) (by decide) (by decide)
     (by decide) (by decide) (by decide) (Or.inl rfl)⟩

/-- When the kernel fits into the padded axis, truncating division toward
zero agrees with floor division on the (then nonnegative) numerator. -/
lemma outDimT_eq_fdiv (size k p s : ℕ) (hk : k ≤ size + 2 * p) :
    outDimT size k p s
      = Int.fdiv ((size : ℤ) - (k : ℤ) + 2 * (p : ℤ)) ((s : ℕ) : ℤ) + 1 := by
  unfold outDimT
  rw [Int.tdiv_eq_ediv (by omega) (by omega), Int.fdiv_eq_ediv _ (by omega)]

/-- C4 (amended): every spatial dimension of a successfully returned
simulated-mode output equals the source's truncation-toward-zero formula
`int((size - kernel + 2*padding)/stride) + 1`; whenever the batch loop
actually ran (`1 ≤ x.n`), this coincides with the claimed floor formula
`floor((size - kernel + 2*padding)/stride) + 1`, because the loop's unfold
step forces the numerator to be nonnegative.  (The output transform is
assumed shape-preserving, as both stored variants — identity and affine —
are.) -/
theorem conv3d_outdim_formula (ext : ExtOps) (L : Conv3dLayer) (x : Tensor5)
    (htr : ∀ u, (L.transform_output u).n = u.n ∧ (L.transform_output u).c = u.c ∧
      (L.transform_output u).d = u.d ∧ (L.transform_output u).h = u.h ∧
      (L.transform_output u).w = u.w)
    (hs : (forwardSim ext L x).isSome = true) :
    ((forwardSim ext L x).map (fun t => ((t.d : ℤ), (t.h : ℤ), (t.w : ℤ)))
      = some (outDimT x.d L.kernel_size.1 L.padding.1 L.stride.1,
          outDimT x.h L.kernel_size.2.1 L.padding.2.1 L.stride.2.1,
          outDimT x.w L.kernel_size.2.2 L.padding.2.2 L.stride.2.2)) ∧
    (1 ≤ x.n →
      (forwardSim ext L x).map (fun t => ((t.d : ℤ), (t.h : ℤ), (t.w : ℤ)))
        = some
            (Int.fdiv ((x.d : ℤ) - (L.kernel_size.1 : ℤ) + 2 * (L.padding.1 : ℤ))
                ((L.stride.1 : ℕ) : ℤ) + 1,
             Int.fdiv ((x.h : ℤ) - (L.kernel_size.2.1 : ℤ) + 2 * (L.padding.2.1 : ℤ))
                ((L.stride.2.1 : ℕ) : ℤ) + 1,
             Int.fdiv ((x.w : ℤ) - (L.kernel_size.2.2 : ℤ) + 2 * (L.padding.2.2 : ℤ))
                ((L.stride.2.2 : ℕ) : ℤ) + 1)) := by
  obtain ⟨t, ht⟩ := Option.isSome_iff_exists.mp hs
  have ht2 := ht
  unfold forwardSim at ht2
  by_cases h1 : L.stride.1 = 0 ∨ L.stride.2.1 = 0 ∨ L.stride.2.2 = 0
  · rw [if_pos h1] at ht2; simp at ht2
  rw [if_neg h1] at ht2
  by_cases h2 : outDimT x.d L.kernel_size.1 L.padding.1 L.stride.1 < 0 ∨
      outDimT x.h L.kernel_size.2.1 L.padding.2.1 L.stride.2.1 < 0 ∨
      outDimT x.w L.kernel_size.2.2 L.padding.2.2 L.stride.2.2 < 0
  · rw [if_pos h2] at ht2; simp at ht2
  rw [if_neg h2] at ht2
  by_cases h3 : 1 ≤ x.n ∧ voltageBad L = true
  · rw [if_pos h3] at ht2; simp at ht2
  rw [if_neg h3] at ht2
  by_cases h4 : 1 ≤ x.n ∧ (x.d + 2 * L.padding.1 < L.kernel_size.1 ∨
      x.h + 2 * L.padding.2.1 < L.kernel_size.2.1 ∨
      x.w + 2 * L.padding.2.2 < L.kernel_size.2.2)
  · rw [if_pos h4] at ht2; simp at ht2
  rw [if_neg h4] at ht2
  push_neg at h2
  obtain ⟨hnn0, hnn1, hnn2⟩ := h2
  have hdims : t.d = (outDimT x.d L.kernel_size.1 L.padding.1 L.stride.1).toNat ∧
      t.h = (outDimT x.h L.kernel_size.2.1 L.padding.2.1 L.stride.2.1).toNat ∧
      t.w = (outDimT x.w L.kernel_size.2.2 L.padding.2.2 L.stride.2.2).toNat := by
    cases hb : L.bias with
    | none =>
        simp only [hb] at ht2
        have hpost := Option.some.inj ht2
        obtain ⟨_, _, hd3, hh3, hw3⟩ := htr (simOutput ext L x)
        rw [← hpost, hd3, hh3, hw3]
        exact ⟨rfl, rfl, rfl⟩
    | some b =>
        simp only [hb] at ht2
        by_cases hn0 : x.n = 0
        · rw [if_pos hn0] at ht2; simp at ht2
        · rw [if_neg hn0] at ht2
          have hpost := Option.some.inj ht2
          obtain ⟨_, _, hd3, hh3, hw3⟩ := htr (simOutput ext L x)
          rw [← hpost]
          show (L.transform_output (simOutput ext L x)).d = _ ∧
            (L.transform_output (simOutput ext L x)).h = _ ∧
            (L.transform_output (simOutput ext L x)).w = _
          rw [hd3, hh3, hw3]
          exact ⟨rfl, rfl, rfl⟩
  obtain ⟨htd, hth, htw⟩ := hdims
  constructor
  · rw [ht]
    simp only [Option.map_some']
    rw [htd, hth, htw, Int.toNat_of_nonneg hnn0, Int.toNat_of_nonneg hnn1,
      Int.toNat_of_nonneg hnn2]
  · intro hn
    have hfit : L.kernel_size.1 ≤ x.d + 2 * L.padding.1 ∧
        L.kernel_size.2.1 ≤ x.h + 2 * L.padding.2.1 ∧
        L.kernel_size.2.2 ≤ x.w + 2 * L.padding.2.2 := by
      rcases Decidable.not_and_iff_or_not.mp h4 with h | h
      · omega
      · push_neg at h; omega
    rw [ht]
    simp only [Option.map_some']
    rw [htd, hth, htw, Int.toNat_of_nonneg hnn0, Int.toNat_of_nonneg hnn1,
      Int.toNat_of_nonneg hnn2, outDimT_eq_fdiv _ _ _ _ hfit.1,
      outDimT_eq_fdiv _ _ _ _ hfit.2.1, outDimT_eq_fdiv _ _ _ _ hfit.2.2]

/-- C4 counterexample: with batch size 0 (so no in-loop failure fires), axis
size 1, kernel 2, stride 2, padding 0, the returned output tensor has spatial
dimension `int(-1/2) + 1 = 1` on each axis, while the claimed floor formula
gives `floor(-1/2) + 1 = 0`. -/
theorem conv3d_outdim_trunc_ne_floor :
    (forwardSim extZero layerK2S2 xTiny0).map (fun t => t.d) = some 1 ∧
    Int.fdiv ((xTiny0.d : ℤ) - (layerK2S2.kernel_size.1 : ℤ)
        + 2 * (layerK2S2.padding.1 : ℤ)) ((layerK2S2.stride.1 : ℕ) : ℤ) + 1 = 0 ∧
    (1 : ℕ) ≠ 0 := by
  refine ⟨?_, by decide, by decide⟩
  · simp only [forwardSim, simOutput, outDimT, voltageBad, layerK2S2, layerBias5, xTiny0]
    norm_num [show Int.tdiv 1 2 = 0 from by decide]

/-- C4 witness: the amended dimension theorem instantiated at the concrete
bias-free scenario. -/
theorem conv3d_outdim_formula_witness :
    (∀ u, (layerNoBias.transform_output u).n = u.n ∧
      (layerNoBias.transform_output u).c = u.c ∧
      (layerNoBias.transform_output u).d = u.d ∧
      (layerNoBias.transform_output u).h = u.h ∧
      (layerNoBias.transform_output u).w = u.w) ∧
    (forwardSim extZero layerNoBias xOnes2).isSome = true ∧
    (((forwardSim extZero layerNoBias xOnes2).map
        (fun t => ((t.d : ℤ), (t.h : ℤ), (t.w : ℤ)))
      = some (outDimT xOnes2.d layerNoBias.kernel_size.1 layerNoBias.padding.1
            layerNoBias.stride.1,
          outDimT xOnes2.h layerNoBias.kernel_size.2.1 layerNoBias.padding.2.1
            layerNoBias.stride.2.1,
          outDimT xOnes2.w layerNoBias.kernel_size.2.2 layerNoBias.padding.2.2
            layerNoBias.stride.2.2)) ∧
     (1 ≤ xOnes2.n →
      (forwardSim extZero layerNoBias xOnes2).map
          (fun t => ((t.d : ℤ), (t.h : ℤ), (t.w : ℤ)))
        = some
            (Int.fdiv ((xOnes2.d : ℤ) - (layerNoBias.kernel_size.1 : ℤ)
                + 2 * (layerNoBias.padding.1 : ℤ)) ((layerNoBias.stride.1 : ℕ) : ℤ) + 1,
             Int.fdiv ((xOnes2.h : ℤ) - (layerNoBias.kernel_size.2.1 : ℤ)
                + 2 * (layerNoBias.padding.2.1 : ℤ)) ((layerNoBias.stride.2.1 : ℕ) : ℤ) + 1,
             Int.fdiv ((xOnes2.w : ℤ) - (layerNoBias.kernel_size.2.2 : ℤ)
                + 2 * (layerNoBias.padding.2.2 : ℤ)) ((layerNoBias.stride.2.2 : ℕ) : ℤ) + 1))) :=
  ⟨fun u => ⟨rfl, rfl, rfl, rfl, rfl⟩, by decide,
   conv3d_outdim_formula extZero layerNoBias xOnes2
     (fun u => ⟨rfl, rfl, rfl, rfl, rfl⟩) (by decide)⟩

/-- C5: every layer the constructor returns starts in legacy mode
(`forward_legacy_enabled = true`), and while that flag holds every forward
call returns the exact dense reference convolution of the input against the
weight, bias, stride and padding copied from the source layer. -/
theorem conv3d_patch_legacy_mode (src : SourceConv3d) (ts : Option (ℕ × ℕ))
    (v : Option ℚ) (adc : Option ℤ) (rate : Option ℚ) (qm : Option String)
    (G : ℕ → ℕ → ℚ) (L : Conv3dLayer)
    (hmk : mkConv3d src ts v adc rate qm G = some L) :
    L.forward_legacy_enabled = true ∧
    ∀ ext x, Conv3dLayer.forward ext L x
      = conv3dRef src.in_channels src.out_channels src.kernel_size src.stride
          src.padding src.weight src.bias x := by
  unfold mkConv3d at hmk
  split at hmk
  · simp at hmk
  · have hL := Option.some.inj hmk
    constructor
    · rw [← hL]
    · intro ext x
      unfold Conv3dLayer.forward
      rw [← hL]
      simp

/-- C5 witness: the constructor theorem instantiated at a concrete patch
call. -/
theorem conv3d_patch_legacy_mode_witness :
    (mkConv3d srcSmall none none none (some 0) none (fun _ _ => 1)).map
      (fun L => L.forward_legacy_enabled) = some true := by
  cases hmk : mkConv3d srcSmall none none none (some 0) none (fun _ _ => 1) with
  | none => exact absurd hmk (by simp [mkConv3d])
  | some L =>
      simp only [Option.map_some']
      rw [(conv3d_patch_legacy_mode srcSmall none none none (some 0) none
        (fun _ _ => 1) L hmk).1]

/-- C6 counterexample: a malformed `quant_method` ("bogus") together with a
valid `ADC_resolution` does not abort construction — the constructor
completes and silently stores `quant_method = None`. -/
theorem conv3d_malformed_quant_accepted :
    (mkConv3d srcSmall none none (some 8) (some 0) (some "bogus")
      (fun _ _ => 1)).map (fun L => L.quant_method) = some none := by
  simp [mkConv3d, quantMethodNames]

/-- C6 (amended): a `quant_method` outside the supported list is coerced to
`None` before the assertions; because the assertions test the original
argument, construction with a malformed `quant_method` completes exactly when
`ADC_resolution` is a positive integer and `ADC_overflow_rate` is supplied,
and the completed layer always stores `quant_method = None`. -/
theorem conv3d_malformed_quant_coerced (src : SourceConv3d) (ts : Option (ℕ × ℕ))
    (v : Option ℚ) (adc : Option ℤ) (rate : Option ℚ) (s : String)
    (G : ℕ → ℕ → ℚ) (hmal : quantMethodNames.contains s = false) :
    ((mkConv3d src ts v adc rate (some s) G).isSome ↔
      ((∃ r, adc = some r ∧ 0 < r) ∧ rate.isSome = true)) ∧
    ∀ L, mkConv3d src ts v adc rate (some s) G = some L → L.quant_method = none := by
  constructor
  · unfold mkConv3d
    cases adc with
    | none => simp
    | some r =>
        by_cases hr : 0 < r
        · cases rate with
          | none => simp [hr]
          | some q => simp [hr]
        · cases rate with
          | none => simp [hr]
          | some q => simp [hr]
  · intro L hmk
    unfold mkConv3d at hmk
    split at hmk
    · simp at hmk
    · have hL := Option.some.inj hmk
      rw [← hL]
      show (if quantMethodNames.contains s = true then some s else none) = none
      rw [hmal]
      simp

/-- C6 witness: the amended coercion theorem instantiated at the concrete
malformed method "bogus" with a valid ADC configuration. -/
theorem conv3d_malformed_quant_coerced_witness :
    quantMethodNames.contains "bogus" = false ∧
    (((mkConv3d srcSmall none none (some 8) (some 0) (some "bogus")
        (fun _ _ => 1)).isSome ↔
      ((∃ r, (some (8 : ℤ)) = some r ∧ 0 < r) ∧ (some (0 : ℚ)).isSome = true)) ∧
    ∀ L, mkConv3d srcSmall none none (some 8) (some 0) (some "bogus")
        (fun _ _ => 1) = some L → L.quant_method = none) :=
  ⟨by decide,
   conv3d_malformed_quant_coerced srcSmall none none (some 8) (some 0) "bogus"
     (fun _ _ => 1) (by decide)⟩

/-- C7 counterexample: the constructor accepts a negative `max_input_voltage`
at patch time — construction completes without any voltage validation. -/
theorem conv3d_negative_voltage_patch_ok :
    (mkConv3d srcSmall none (some (-1)) none (some 0) none
      (fun _ _ => 1)).isSome = true := by
  simp [mkConv3d]

/-- C7 (amended): the constructor never inspects `max_input_voltage` —
construction succeeds or fails identically with any stored voltage — and the
positivity check instead fires inside the simulated forward pass: every
simulated-mode call on at least one batch element with a stored non-positive
voltage bound aborts. -/
theorem conv3d_voltage_checked_at_forward :
    (∀ src ts adc rate qm G (v : ℚ),
      (mkConv3d src ts (some v) adc rate qm G).isSome
        = (mkConv3d src ts none adc rate qm G).isSome) ∧
    (∀ ext L x (v : ℚ), L.max_input_voltage = some v → v ≤ 0 → 1 ≤ x.n →
      forwardSim ext L x = none) := by
  constructor
  · intro src ts adc rate qm G v
    unfold mkConv3d
    split <;> rfl
  · intro ext L x v hv hv0 hn
    have hbad : voltageBad L = true := by
      unfold voltageBad; rw [hv]; exact decide_eq_true hv0
    unfold forwardSim
    by_cases h1 : L.stride.1 = 0 ∨ L.stride.2.1 = 0 ∨ L.stride.2.2 = 0
    · rw [if_pos h1]
    · rw [if_neg h1]
      by_cases h2 : outDimT x.d L.kernel_size.1 L.padding.1 L.stride.1 < 0 ∨
          outDimT x.h L.kernel_size.2.1 L.padding.2.1 L.stride.2.1 < 0 ∨
          outDimT x.w L.kernel_size.2.2 L.padding.2.2 L.stride.2.2 < 0
      · rw [if_pos h2]
      · rw [if_neg h2, if_pos ⟨hn, hbad⟩]

/-- C7 witness: the amended theorem instantiated at the concrete layer with
stored voltage bound `-1` and a two-element batch. -/
theorem conv3d_voltage_checked_at_forward_witness :
    layerBadVolt.max_input_voltage = some (-1) ∧ ((-1 : ℚ) ≤ 0) ∧
    1 ≤ xOnes2.n ∧ forwardSim extZero layerBadVolt xOnes2 = none :=
  ⟨rfl, by norm_num, by decide,
   conv3d_voltage_checked_at_forward.2 extZero layerBadVolt xOnes2 (-1) rfl
     (by norm_num) (by decide)⟩

/-- C8: `tune` is overwrite-only — after two tune calls the stored transform
is exactly the map fitted by the second call (fitted against the once-tuned
layer state), the double-tuned layer is the original layer with only that
transform replaced, and no composition of the two fitted maps is stored. -/
theorem conv3d_tune_overwrites
    (fit : Conv3dLayer → ℕ → ℕ → (Tensor5 → Tensor5)) (L : Conv3dLayer)
    (bs1 sz1 bs2 sz2 : ℕ) :
    ((L.tune fit bs1 sz1).tune fit bs2 sz2).transform_output
      = fit (L.tune fit bs1 sz1) bs2 sz2 ∧
    ((L.tune fit bs1 sz1).tune fit bs2 sz2)
      = { L with transform_output := fit (L.tune fit bs1 sz1) bs2 sz2 } :=
  ⟨rfl, rfl⟩

/-- C9: construction disables gradient tracking on the copied weight and
bias; the forward method (whose body assigns to no attribute of `self`,
embedded in state-passing form) leaves the layer state untouched, and `tune`
replaces only the output transform, preserving the weight tensor, the bias
vector and the crossbar conductances. -/
theorem conv3d_frozen_params (src : SourceConv3d) (ts : Option (ℕ × ℕ))
    (v : Option ℚ) (adc : Option ℤ) (rate : Option ℚ) (qm : Option String)
    (G : ℕ → ℕ → ℚ) (L : Conv3dLayer)
    (hmk : mkConv3d src ts v adc rate qm G = some L) :
    L.weight_requires_grad = false ∧ L.bias_requires_grad = false ∧
    (∀ ext x, (Conv3dLayer.forwardM ext L x).1 = L) ∧
    (∀ fit bs sz, (L.tune fit bs sz).weight = L.weight ∧
      (L.tune fit bs sz).bias = L.bias ∧
      (L.tune fit bs sz).conductance_matrix = L.conductance_matrix) := by
  unfold mkConv3d at hmk
  split at hmk
  · simp at hmk
  · have hL := Option.some.inj hmk
    refine ⟨by rw [← hL], by rw [← hL], fun ext x => rfl, fun fit bs sz => ⟨rfl, rfl, rfl⟩⟩

/-- C9 witness: the frozen-parameters theorem instantiated at a concrete
patch call. -/
theorem conv3d_frozen_params_witness :
    (mkConv3d srcSmall none none none (some 0) none (fun _ _ => 1)).map
      (fun L => (L.weight_requires_grad, L.bias_requires_grad))
      = some (false, false) := by
  cases hmk : mkConv3d srcSmall none none none (some 0) none (fun _ _ => 1) with
  | none => exact absurd hmk (by simp [mkConv3d])
  | some L =>
      simp only [Option.map_some']
      have h := conv3d_frozen_params srcSmall none none none (some 0) none
        (fun _ _ => 1) L hmk
      rw [h.1, h.2.1]

/-- C10: in simulated mode, a forward call on an empty batch with a stored
bias fails — the bias step references the batch-loop variable, which is never
bound when the loop runs zero times — instead of returning an empty output
tensor. -/
theorem conv3d_empty_batch_bias_fails (ext : ExtOps) (L : Conv3dLayer)
    (x : Tensor5) (hflag : L.forward_legacy_enabled = false)
    (hbias : L.bias.isSome = true) (hn : x.n = 0) :
    Conv3dLayer.forward ext L x = none := by
  unfold Conv3dLayer.forward
  rw [if_neg (by rw [hflag]; exact Bool.false_ne_true)]
  obtain ⟨b, hb⟩ := Option.isSome_iff_exists.mp hbias
  unfold forwardSim
  by_cases h1 : L.stride.1 = 0 ∨ L.stride.2.1 = 0 ∨ L.stride.2.2 = 0
  · rw [if_pos h1]
  · rw [if_neg h1]
    by_cases h2 : outDimT x.d L.kernel_size.1 L.padding.1 L.stride.1 < 0 ∨
        outDimT x.h L.kernel_size.2.1 L.padding.2.1 L.stride.2.1 < 0 ∨
        outDimT x.w L.kernel_size.2.2 L.padding.2.2 L.stride.2.2 < 0
    · rw [if_pos h2]
    · rw [if_neg h2, if_neg (by rintro ⟨hx, -⟩; omega),
        if_neg (by rintro ⟨hx, -⟩; omega)]
      simp only [hb]
      rw [if_pos hn]

/-- C10 witness: the empty-batch failure at the concrete bias scenario. -/
theorem conv3d_empty_batch_bias_fails_witness :
    layerBias5.forward_legacy_enabled = false ∧ layerBias5.bias.isSome = true ∧
    xEmpty.n = 0 ∧ Conv3dLayer.forward extZero layerBias5 xEmpty = none :=
  ⟨rfl, rfl, rfl,
   conv3d_empty_batch_bias_fails extZero layerBias5 xEmpty rfl rfl rfl⟩
